import Mathlib

/-!
Shallow embedding of the Hetzner inventory tool (`hetzner.go` and its `api`
package) for verification of its specification.

Conventions of the embedding:
* IPv4 addresses are represented as natural numbers (the 32-bit value that
  `net.IP.String()` renders); the Go node map keyed by `Ip.String()` becomes
  an association list keyed by that number, since the string rendering of
  distinct parsed addresses is injective.
* Go `int` fields become `Int`, strings become `String`, booleans `Bool`.
* `time.Time` values for `Paid_until` are represented as `Option (Nat × Nat × Nat)`
  (year, month, day); the zero/unset time of a failed parse is `none`.
* Fatal `panic` calls become `Except.error` values carrying a `RunError`
  describing the panic; nil-pointer dereferences (crashes without a
  descriptive message) get their own distinguished `RunError` constructors.
-/

/-! ### Kinds (constants from hetzner.go) -/

def KindNil : Nat := 0
def KindHost : Nat := 1
def KindManagement : Nat := 2
def KindNetwork : Nat := 3
def KindVirtual : Nat := 4
def KindFailover : Nat := 5

/-! ### Date parsing: model of `time.Parse("2006-01-02", s)` restricted to
what the reconciler needs: a string parses iff it is exactly `YYYY-MM-DD`
with a valid calendar date (Go validates month range and day-in-month,
including leap years); on failure the zero time results, modelled as `none`. -/

def digitVal (c : Char) : Nat := c.toNat - '0'.toNat

def isDigitCh (c : Char) : Bool := '0' ≤ c && c ≤ '9'

def isLeapYear (y : Nat) : Bool := y % 4 = 0 && (y % 100 ≠ 0 || y % 400 = 0)

def daysInMonth (y m : Nat) : Nat :=
  if m = 2 then (if isLeapYear y then 29 else 28)
  else if m = 4 || m = 6 || m = 9 || m = 11 then 30
  else 31

def parsePaidUntil (s : String) : Option (Nat × Nat × Nat) :=
  match s.toList with
  | [y1, y2, y3, y4, '-', m1, m2, '-', d1, d2] =>
    if (isDigitCh y1 && isDigitCh y2 && isDigitCh y3 && isDigitCh y4 &&
        isDigitCh m1 && isDigitCh m2 && isDigitCh d1 && isDigitCh d2) then
      let y := ((digitVal y1 * 10 + digitVal y2) * 10 + digitVal y3) * 10 + digitVal y4
      let mo := digitVal m1 * 10 + digitVal m2
      let d := digitVal d1 * 10 + digitVal d2
      if 1 ≤ mo && mo ≤ 12 && 1 ≤ d && d ≤ daysInMonth y mo then
        some (y, mo, d)
      else none
    else none
  | _ => none

/-! ### MAC parsing: model of `net.ParseMAC` restricted to the colon-separated
6-octet form (the only form relevant here); empty or malformed strings give
`none`, matching the discarded-error call `n.Separate_mac, _ = net.ParseMAC(...)`. -/

def isHexCh (c : Char) : Bool :=
  ('0' ≤ c && c ≤ '9') || ('a' ≤ c && c ≤ 'f') || ('A' ≤ c && c ≤ 'F')

def parseMAC (s : String) : Option String :=
  match s.toList with
  | [a1, a2, ':', b1, b2, ':', c1, c2, ':', d1, d2, ':', e1, e2, ':', f1, f2] =>
    if (isHexCh a1 && isHexCh a2 && isHexCh b1 && isHexCh b2 && isHexCh c1 &&
        isHexCh c2 && isHexCh d1 && isHexCh d2 && isHexCh e1 && isHexCh e2 &&
        isHexCh f1 && isHexCh f2) then some s else none
  | _ => none

/-! ### Raw api records (package api, types Server, Ip, Subnet, Rdns, Failover) -/

structure Server where
  Server_ip : Nat
  Server_number : Int
  Server_name : String
  Product : String
  Dc : String
  Traffic : String
  Flatrate : Bool
  Status : String
  Throttled : Bool
  Cancelled : Bool
  Paid_until : String
deriving DecidableEq, Repr

structure Ip where
  Ip : Nat
  Server_ip : Nat
  Server_number : Int
  Locked : Bool
  Separate_mac : String
  Traffic_warnings : Bool
  Traffic_hourly : Int
  Traffic_daily : Int
  Traffic_monthly : Int
deriving DecidableEq, Repr

structure Subnet where
  Ip : Nat
  Mask : Int
  Gateway : Nat
  Server_ip : Nat
  Server_number : Int
  Failover : Bool
  Locked : Bool
  Traffic_warnings : Bool
  Traffic_hourly : Int
  Traffic_daily : Int
  Traffic_monthly : Int
deriving DecidableEq, Repr

structure Rdns where
  Ip : Nat
  Ptr : String
deriving DecidableEq, Repr

structure Failover where
  Ip : Nat
  Netmask : String
  Server_ip : Nat
  Server_number : Int
  Active_server_ip : Nat
deriving DecidableEq, Repr

/-! ### Node (hetzner.go) -/

structure Node where
  Ip : Nat
  Ptr : String
  Separate_mac : Option String
  Server_ip : Nat
  Subnet : Option (Nat × Int)    -- network address and CIDR prefix length; none = nil
  Gateway : Option Nat           -- none = nil IP
  Dc : String
  Product : String
  Server_name : String
  Server_number : Int
  Throttled : Bool
  Status : String
  Cancelled : Bool
  Failover : Bool
  Flatrate : Bool
  Locked : Bool
  Paid_until : Option (Nat × Nat × Nat)
  Traffic_warnings : Bool
  Traffic : String
  Traffic_daily : Int
  Traffic_hourly : Int
  Traffic_monthly : Int
  Active_server_ip : Option Nat  -- none = nil IP
  Kind : Nat
deriving DecidableEq, Repr

/-- The host-ancestry fields copied down from an owning host: product,
datacenter, server name, server number, status, cancelled, flatrate,
throttled, paid-until, and the traffic quota string. -/
structure Ancestry where
  Product : String
  Dc : String
  Server_name : String
  Server_number : Int
  Status : String
  Cancelled : Bool
  Flatrate : Bool
  Throttled : Bool
  Paid_until : Option (Nat × Nat × Nat)
  Traffic : String
deriving DecidableEq, Repr

def anc (n : Node) : Ancestry :=
  ⟨n.Product, n.Dc, n.Server_name, n.Server_number, n.Status, n.Cancelled,
   n.Flatrate, n.Throttled, n.Paid_until, n.Traffic⟩

/-! ### The node map: Go `map[string]*Node` keyed by `Ip.String()`. -/

abbrev NodeMap := List (Nat × Node)

def lookupN : NodeMap → Nat → Option Node
  | [], _ => none
  | p :: m, k => if p.1 = k then some p.2 else lookupN m k

def insertN : NodeMap → Nat → Node → NodeMap
  | [], k, v => [(k, v)]
  | p :: m, k, v => if p.1 = k then (k, v) :: m else p :: insertN m k v

/-! ### Errors: the reconciler's fatal outcomes. `panic` calls carry a
message in the source; the two nil-map-lookup dereferences crash without
one and get separate constructors. -/

inductive RunError
  | noHostForIp (ip : Nat)          -- panic "no host found for <ip>"
  | subnetConflict (ip : Nat)       -- panic "subnet conflicted with node <ip>"
  | nilServerForSubnet (ip : Nat)   -- nil dereference: nodes[e.Server_ip] missing in the subnet pass
  | loosenRdns (ip : Nat)           -- panic "should not reach that point: loosen record ..."
  | nilServerForRdns (ip : Nat)     -- nil dereference: nodes[s.Server_ip] missing in the RDNS pass
  | noSubnetForFailover (ip : Nat)  -- panic "no subnet for failover <ip>"
deriving DecidableEq, Repr

/-! ### Pass 1: hosts -/

def mkHost (e : Server) : Node :=
  { Ip := e.Server_ip
    Server_number := e.Server_number
    Server_name := e.Server_name
    Product := e.Product
    Dc := e.Dc
    Traffic := e.Traffic
    Flatrate := e.Flatrate
    Status := e.Status
    Throttled := e.Throttled
    Cancelled := e.Cancelled
    Paid_until := parsePaidUntil e.Paid_until
    Server_ip := e.Server_ip
    Kind := KindHost
    Ptr := ""
    Separate_mac := none
    Subnet := none
    Gateway := none
    Failover := false
    Locked := false
    Traffic_warnings := false
    Traffic_daily := 0
    Traffic_hourly := 0
    Traffic_monthly := 0
    Active_server_ip := none }

def hostPass (rservers : List Server) : NodeMap :=
  rservers.foldl (fun m e => insertN m e.Server_ip (mkHost e)) []

/-! ### Pass 2: individually-assigned IPs -/

def applyIpFields (n : Node) (e : Ip) : Node :=
  { n with Locked := e.Locked
           Separate_mac := parseMAC e.Separate_mac
           Traffic_warnings := e.Traffic_warnings
           Traffic_hourly := e.Traffic_hourly
           Traffic_daily := e.Traffic_daily
           Traffic_monthly := e.Traffic_monthly }

def ipStep (m : NodeMap) (e : Ip) : Except RunError NodeMap :=
  match lookupN m e.Ip with
  | some n => .ok (insertN m e.Ip (applyIpFields n e))
  | none =>
    match lookupN m e.Server_ip with
    | some host =>
      if host.Ip ≠ e.Ip then
        .ok (insertN m e.Ip (applyIpFields { host with Ip := e.Ip, Kind := KindManagement } e))
      else
        .ok (insertN m e.Server_ip (applyIpFields host e))
    | none => .error (.noHostForIp e.Ip)

/-! ### Pass 3: subnets -/

/-- Model of `(&net.IPNet{IP: base, Mask: net.CIDRMask(mask, 32)}).Contains ip`
for IPv4: compare the top `mask` bits; out-of-range prefix lengths give a nil
mask, for which `Contains` returns false. -/
def ipnetContains (base : Nat) (mask : Int) (ip : Nat) : Bool :=
  if 0 ≤ mask && mask ≤ 32 then
    ip / 2 ^ (32 - mask.toNat) == base / 2 ^ (32 - mask.toNat)
  else false

def subnetStep (st : NodeMap × List Node) (e : Subnet) : Except RunError (NodeMap × List Node) :=
  match lookupN st.1 e.Ip with
  | some _ => .error (.subnetConflict e.Ip)
  | none =>
    match lookupN st.1 e.Server_ip with
    | none => .error (.nilServerForSubnet e.Ip)
    | some server =>
      let n : Node := { server with
        Ip := e.Ip
        Kind := KindNetwork
        Gateway := some e.Gateway
        Failover := e.Failover
        Locked := e.Locked
        Traffic_warnings := e.Traffic_warnings
        Traffic_hourly := e.Traffic_hourly
        Traffic_daily := e.Traffic_daily
        Traffic_monthly := e.Traffic_monthly
        Subnet := some (e.Ip, e.Mask) }
      .ok (insertN st.1 e.Ip n, st.2 ++ [n])

/-! ### Pass 4: reverse DNS -/

def subnetHas (s : Node) (ip : Nat) : Bool :=
  match s.Subnet with
  | some (base, mask) => ipnetContains base mask ip
  | none => false

def rdnsStep (subnets : List Node) (m : NodeMap) (e : Rdns) : Except RunError NodeMap :=
  match lookupN m e.Ip with
  | some n => .ok (insertN m e.Ip { n with Ptr := e.Ptr })
  | none =>
    match subnets.find? (fun s => subnetHas s e.Ip) with
    | some s =>
      match lookupN m s.Server_ip with
      | some host =>
        .ok (insertN m e.Ip { host with Ip := e.Ip, Ptr := e.Ptr, Kind := KindVirtual })
      | none => .error (.nilServerForRdns e.Ip)
    | none => .error (.loosenRdns e.Ip)

/-! ### Pass 5: failover IPs -/

def failoverStep (m : NodeMap) (e : Failover) : Except RunError NodeMap :=
  match lookupN m e.Ip with
  | some n =>
    if n.Kind = KindNetwork ∧ n.Failover = true then
      .ok (insertN m e.Ip { n with Kind := KindFailover, Active_server_ip := some e.Active_server_ip })
    else .error (.noSubnetForFailover e.Ip)
  | none => .error (.noSubnetForFailover e.Ip)

/-! ### Ordering (Nodes.Less) and the final sorted list -/

def nodesLess (a b : Node) : Bool :=
  if a.Server_number = b.Server_number then decide (a.Kind < b.Kind)
  else decide (a.Server_number < b.Server_number)

/-- `sort.Sort` orders so that no later element is `Less` than an earlier
one: the corresponding non-strict relation. -/
def nodeLe (a b : Node) : Prop := nodesLess b a = false

instance : DecidableRel nodeLe := fun a b => inferInstanceAs (Decidable (_ = false))

def sortNodes (l : List Node) : List Node := List.insertionSort nodeLe l

/-! ### The reconciler: getHetznerData, network fetch abstracted into the
five raw collections it consumes. -/

def runPass {α : Type} (f : NodeMap → α → Except RunError NodeMap) :
    NodeMap → List α → Except RunError NodeMap
  | m, [] => .ok m
  | m, e :: l =>
    match f m e with
    | .error err => .error err
    | .ok m' => runPass f m' l

def runSubnetPass : NodeMap × List Node → List Subnet → Except RunError (NodeMap × List Node)
  | st, [] => .ok st
  | st, e :: l =>
    match subnetStep st e with
    | .error err => .error err
    | .ok st' => runSubnetPass st' l

def getHetznerData (rservers : List Server) (rips : List Ip) (rsubnets : List Subnet)
    (rrdns : List Rdns) (rfailover : List Failover) : Except RunError (List Node) :=
  match runPass ipStep (hostPass rservers) rips with
  | .error e => .error e
  | .ok m1 =>
    match runSubnetPass (m1, []) rsubnets with
    | .error e => .error e
    | .ok (m2, subnets) =>
      match runPass (rdnsStep subnets) m2 rrdns with
      | .error e => .error e
      | .ok m3 =>
        match runPass failoverStep m3 rfailover with
        | .error e => .error e
        | .ok m4 => .ok (sortNodes (m4.map Prod.snd))

/-! ### Node identity: the IP string, or the CIDR string for Network nodes.
Distinct constructors model that a CIDR string (containing a slash) never
equals a plain IP string. -/

inductive NodeId
  | addr (a : Nat)
  | cidr (a : Nat) (mask : Int)
deriving DecidableEq, Repr

def nodeId (n : Node) : NodeId :=
  if n.Kind = KindNetwork then
    match n.Subnet with
    | some (base, mask) => .cidr base mask
    | none => .addr n.Ip
  else .addr n.Ip

/-! ### Association-list map lemmas -/

def keysNodup (m : NodeMap) : Prop := (m.map Prod.fst).Nodup


/-! ### The reconciler invariant: keys are the nodes' own IPs and are
pairwise distinct, Network nodes carry their own address as subnet base,
and every node's ancestry equals some Host-kind node's ancestry. -/

def netOk (n : Node) : Bool :=
  if n.Kind = KindNetwork then
    match n.Subnet with
    | some (base, _) => base == n.Ip
    | none => false
  else true

def MapInv (m : NodeMap) : Prop :=
  keysNodup m ∧
  (∀ p ∈ m, p.1 = p.2.Ip ∧ netOk p.2 = true) ∧
  (∀ p ∈ m, ∃ q ∈ m, q.2.Kind = KindHost ∧ anc q.2 = anc p.2)

instance (m : NodeMap) : Decidable (MapInv m) := by
  unfold MapInv keysNodup
  infer_instance

def HostsInv (m : NodeMap) : Prop :=
  keysNodup m ∧ ∀ p ∈ m, p.1 = p.2.Ip ∧ p.2.Kind = KindHost

/-! Concrete scenario used by several witnesses: one host (ip 1, number 100)
and one additional ip record (ip 2 owned by ip 1). -/

def wServer : Server :=
  { Server_ip := 1, Server_number := 100, Server_name := "n", Product := "p"
    Dc := "d", Traffic := "t", Flatrate := true, Status := "ready"
    Throttled := false, Cancelled := false, Paid_until := "2026-01-02" }

def wIpRec : Ip :=
  { Ip := 2, Server_ip := 1, Server_number := 100, Locked := false
    Separate_mac := "", Traffic_warnings := false, Traffic_hourly := 0
    Traffic_daily := 0, Traffic_monthly := 0 }

def wHost : Node := mkHost wServer

def wMgmt : Node := applyIpFields { wHost with Ip := 2, Kind := KindManagement } wIpRec

def wNet : Node :=
  { wHost with Ip := 256, Kind := KindNetwork, Subnet := some (256, 24), Gateway := some 257 }

/-! ### C6: the concrete two-node scenario (10.0.0.1 = 167772161,
10.0.0.2 = 167772162) -/

def c6Server : Server :=
  { Server_ip := 167772161, Server_number := 100, Server_name := "web1"
    Product := "EX41", Dc := "FSN1-DC8", Traffic := "30 TB", Flatrate := true
    Status := "ready", Throttled := false, Cancelled := false
    Paid_until := "2025-12-31" }

def c6IpRec : Ip :=
  { Ip := 167772162, Server_ip := 167772161, Server_number := 100
    Locked := false, Separate_mac := "aa:bb:cc:dd:ee:ff", Traffic_warnings := false
    Traffic_hourly := 0, Traffic_daily := 0, Traffic_monthly := 0 }

def c6Host : Node := mkHost c6Server

def c6Mgmt : Node := applyIpFields { c6Host with Ip := 167772162, Kind := KindManagement } c6IpRec

def c8Server : Server := { wServer with Paid_until := "not-a-date" }

def cxIpB : Ip := { wIpRec with Ip := 3, Server_ip := 2 }

def ownerIsHost (m : NodeMap) (s : Node) : Bool :=
  match lookupN m s.Server_ip with
  | some h => h.Kind == KindHost
  | none => false

def c9SubnetRec : Subnet :=
  { Ip := 256, Mask := 24, Gateway := 257, Server_ip := 1, Server_number := 100
    Failover := false, Locked := false, Traffic_warnings := false
    Traffic_hourly := 0, Traffic_daily := 0, Traffic_monthly := 0 }

/-! ### Client.do (package api): the transport-error branch.

In the source, `res, err := c.http.Do(req)` is followed immediately by
`defer res.Body.Close()`, and the error constructor reads `res.StatusCode`;
when the transport call returns an error its response is nil, so both uses
dereference a nil pointer before the intended RequestError can be returned.
The embedding makes that outcome an explicit `crash` result. JSON decoding
(reflection-based `decodeResponse`) is abstracted as function parameters. -/

structure HttpResponse where
  StatusCode : Int
  Body : String
deriving DecidableEq, Repr

/-- api.Error: the provider's structured error payload. -/
structure ApiError where
  Status : Int
  Code : String
  Message : String
deriving DecidableEq, Repr

inductive Cause
  | transport (msg : String)        -- error returned by http.Client.Do
  | api (e : ApiError)              -- decoded provider error
  | decode (msg : String)           -- JSON decode failure
deriving DecidableEq, Repr

/-- api.RequestError; the source fills HttpReq from req.Method and
HttpMethod from req.URL.Path (positionally, in that swapped order). -/
structure RequestError where
  HttpReq : String
  HttpMethod : String
  HttpStatusCode : Int
  RootCause : Cause
deriving DecidableEq, Repr

inductive DoResult
  | crash                           -- nil-response dereference
  | fail (e : RequestError)
  | done
deriving DecidableEq, Repr

def clientDo (method path : String) (res : Option HttpResponse) (err : Option String)
    (decodeErrorBody : String → Except String ApiError)
    (decodeValue : String → Except String Unit) : DoResult :=
  match res with
  | none => .crash
  | some r =>
    match err with
    | some msg => .fail ⟨method, path, r.StatusCode, .transport msg⟩
    | none =>
      if r.StatusCode ≠ 200 then
        match decodeErrorBody r.Body with
        | .ok apiErr => .fail ⟨method, path, r.StatusCode, .api apiErr⟩
        | .error dmsg => .fail ⟨method, path, r.StatusCode, .decode dmsg⟩
      else
        match decodeValue r.Body with
        | .ok _ => .done
        | .error dmsg => .fail ⟨method, path, r.StatusCode, .decode dmsg⟩

def c4FoRec : Failover :=
  { Ip := 7, Netmask := "255.255.255.255", Server_ip := 1, Server_number := 100
    Active_server_ip := 1 }

instance : IsTrans Node nodeLe where
  trans a b c hab hbc := by
    unfold nodeLe nodesLess at hab hbc ⊢
    split at hab <;> split at hbc <;> split <;>
      simp only [decide_eq_false_iff_not, decide_eq_true_eq, not_lt] at hab hbc ⊢ <;>
      omega

instance : IsTotal Node nodeLe where
  total a b := by
    unfold nodeLe nodesLess
    by_cases h : b.Server_number = a.Server_number
    · simp only [h, if_pos, if_true, eq_self_iff_true, decide_eq_false_iff_not, not_lt]
      omega
    · have h2 : ¬ a.Server_number = b.Server_number := fun hh => h hh.symm
      simp only [h, h2, if_neg, if_false, decide_eq_false_iff_not, not_lt]
      omega

theorem lookupN_mem {m : NodeMap} {k : Nat} {n : Node} (h : lookupN m k = some n) :
    (k, n) ∈ m := by
  induction m with
  | nil => simp [lookupN] at h
  | cons p m ih =>
    by_cases hk : p.1 = k
    · simp only [lookupN, if_pos hk] at h
      injection h with h
      have hp : p = (k, n) := by
        cases p
        simp_all
      rw [← hp]
      exact List.mem_cons_self p m
    · simp only [lookupN, if_neg hk] at h
      exact List.mem_cons_of_mem _ (ih h)

theorem lookupN_eq_none_iff {m : NodeMap} {k : Nat} :
    lookupN m k = none ↔ k ∉ m.map Prod.fst := by
  induction m with
  | nil => simp [lookupN]
  | cons p m ih =>
    by_cases hk : p.1 = k
    · simp [lookupN, hk]
    · simp [lookupN, hk, ih, Ne.symm hk]

theorem insertN_of_not_mem {m : NodeMap} {k : Nat} (v : Node)
    (h : k ∉ m.map Prod.fst) : insertN m k v = m ++ [(k, v)] := by
  induction m with
  | nil => rfl
  | cons p m ih =>
    simp only [List.map_cons, List.mem_cons] at h
    push_neg at h
    have hq : ¬ p.1 = k := fun hh => h.1 hh.symm
    simp [insertN, hq, ih h.2]

theorem mem_insertN_elim {m : NodeMap} {k : Nat} {v : Node} {p : Nat × Node}
    (h : p ∈ insertN m k v) : p = (k, v) ∨ p ∈ m := by
  induction m with
  | nil => simpa [insertN] using h
  | cons q m ih =>
    by_cases hk : q.1 = k
    · simp only [insertN, if_pos hk, List.mem_cons] at h
      rcases h with h | h
      · exact Or.inl h
      · exact Or.inr (List.mem_cons_of_mem _ h)
    · simp only [insertN, if_neg hk, List.mem_cons] at h
      rcases h with h | h
      · subst h
        exact Or.inr (List.mem_cons_self _ _)
      · rcases ih h with h | h
        · exact Or.inl h
        · exact Or.inr (List.mem_cons_of_mem _ h)

theorem mem_insertN_of_ne {m : NodeMap} {k : Nat} {v : Node} {p : Nat × Node}
    (hp : p ∈ m) (hne : p.1 ≠ k) : p ∈ insertN m k v := by
  induction m with
  | nil => simp at hp
  | cons q m ih =>
    rcases List.mem_cons.mp hp with h | h
    · subst h
      simp [insertN, if_neg hne]
    · by_cases hk : q.1 = k
      · simp [insertN, if_pos hk, List.mem_cons_of_mem _ h]
      · simp [insertN, if_neg hk, ih h]

theorem self_mem_insertN (m : NodeMap) (k : Nat) (v : Node) :
    (k, v) ∈ insertN m k v := by
  induction m with
  | nil => simp [insertN]
  | cons q m ih =>
    by_cases hk : q.1 = k
    · simp [insertN, hk]
    · simp [insertN, hk, ih]

theorem keys_insertN_of_mem {m : NodeMap} {k : Nat} (v : Node)
    (h : k ∈ m.map Prod.fst) : (insertN m k v).map Prod.fst = m.map Prod.fst := by
  induction m with
  | nil => simp at h
  | cons q m ih =>
    by_cases hk : q.1 = k
    · simp [insertN, hk]
    · simp only [List.map_cons, List.mem_cons] at h
      rcases h with h | h
      · exact absurd h.symm hk
      · simp [insertN, hk, ih h]

theorem keysNodup_insertN {m : NodeMap} {k : Nat} (v : Node)
    (h : keysNodup m) : keysNodup (insertN m k v) := by
  by_cases hk : k ∈ m.map Prod.fst
  · unfold keysNodup
    rw [keys_insertN_of_mem v hk]
    exact h
  · unfold keysNodup
    rw [insertN_of_not_mem v hk]
    simp only [List.map_append, List.map_cons, List.map_nil]
    exact List.Nodup.append h (List.nodup_singleton k) (by
      intro a ha hb
      simp only [List.mem_singleton] at hb
      exact hk (hb ▸ ha))

theorem lookupN_insertN_self (m : NodeMap) (k : Nat) (v : Node) :
    lookupN (insertN m k v) k = some v := by
  induction m with
  | nil => simp [insertN, lookupN]
  | cons q m ih =>
    by_cases hk : q.1 = k
    · simp [insertN, hk, lookupN]
    · simp [insertN, hk, lookupN, ih]

theorem lookupN_insertN_ne (m : NodeMap) {k k' : Nat} (v : Node) (h : k' ≠ k) :
    lookupN (insertN m k v) k' = lookupN m k' := by
  induction m with
  | nil => simp [insertN, lookupN, Ne.symm h]
  | cons q m ih =>
    by_cases hk : q.1 = k
    · simp [insertN, hk, lookupN, Ne.symm h]
    · by_cases hk' : q.1 = k'
      · simp [insertN, hk, lookupN, hk', h]
      · simp [insertN, hk, lookupN, hk', ih]

theorem lookupN_of_mem_nodup {m : NodeMap} {p : Nat × Node}
    (hn : keysNodup m) (hp : p ∈ m) : lookupN m p.1 = some p.2 := by
  induction m with
  | nil => simp at hp
  | cons q m ih =>
    unfold keysNodup at hn
    simp only [List.map_cons, List.nodup_cons] at hn
    rcases List.mem_cons.mp hp with h | h
    · subst h
      simp [lookupN]
    · have hne : q.1 ≠ p.1 := by
        intro hqp
        exact hn.1 (hqp ▸ List.mem_map_of_mem Prod.fst h)
      simp [lookupN, hne, ih hn.2 h]

theorem MapInv.insert_fresh {m : NodeMap} {k : Nat} {v : Node} (h : MapInv m)
    (hl : lookupN m k = none) (hip : v.Ip = k) (hnet : netOk v = true)
    (hanc : v.Kind = KindHost ∨ ∃ p ∈ m, anc p.2 = anc v) :
    MapInv (insertN m k v) := by
  have hk : k ∉ m.map Prod.fst := lookupN_eq_none_iff.mp hl
  rw [insertN_of_not_mem v hk]
  refine ⟨?_, ?_, ?_⟩
  · unfold keysNodup
    simp only [List.map_append, List.map_cons, List.map_nil]
    exact List.Nodup.append h.1 (List.nodup_singleton k) (by
      intro a ha hb
      simp only [List.mem_singleton] at hb
      exact hk (hb ▸ ha))
  · intro p hp
    rcases List.mem_append.mp hp with hp | hp
    · exact h.2.1 p hp
    · simp only [List.mem_singleton] at hp
      subst hp
      exact ⟨hip.symm, hnet⟩
  · intro p hp
    rcases List.mem_append.mp hp with hp | hp
    · obtain ⟨q, hq, hqk, hqa⟩ := h.2.2 p hp
      exact ⟨q, List.mem_append_left _ hq, hqk, hqa⟩
    · simp only [List.mem_singleton] at hp
      subst hp
      rcases hanc with hv | ⟨p', hp', hpa⟩
      · exact ⟨(k, v), List.mem_append_right _ (List.mem_singleton_self _), hv, rfl⟩
      · obtain ⟨q, hq, hqk, hqa⟩ := h.2.2 p' hp'
        exact ⟨q, List.mem_append_left _ hq, hqk, by rw [hqa, hpa]⟩

theorem MapInv.insert_update {m : NodeMap} {k : Nat} {n v : Node} (h : MapInv m)
    (hl : lookupN m k = some n) (hip : v.Ip = k) (hnet : netOk v = true)
    (hanc : anc v = anc n) (hkind : v.Kind = KindHost ↔ n.Kind = KindHost) :
    MapInv (insertN m k v) := by
  have hmem : (k, n) ∈ m := lookupN_mem hl
  have hkeys : k ∈ m.map Prod.fst := List.mem_map_of_mem Prod.fst hmem
  have huniq : ∀ p ∈ m, p.1 = k → p.2 = n := by
    intro p hp hpk
    have := lookupN_of_mem_nodup h.1 hp
    rw [hpk, hl] at this
    injection this with this
    exact this.symm
  refine ⟨?_, ?_, ?_⟩
  · unfold keysNodup
    rw [keys_insertN_of_mem v hkeys]
    exact h.1
  · intro p hp
    rcases mem_insertN_elim hp with hp | hp
    · subst hp
      exact ⟨hip.symm, hnet⟩
    · exact h.2.1 p hp
  · intro p hp
    -- a surviving witness for the ancestry of p
    have witness : ∀ p' ∈ m, ∃ q ∈ insertN m k v, q.2.Kind = KindHost ∧ anc q.2 = anc p'.2 := by
      intro p' hp'
      obtain ⟨q, hq, hqk, hqa⟩ := h.2.2 p' hp'
      by_cases hqk' : q.1 = k
      · -- the witness is the replaced entry: the replacement keeps Host kind and ancestry
        have hqn : q.2 = n := huniq q hq hqk'
        have hnk : n.Kind = KindHost := hqn ▸ hqk
        exact ⟨(k, v), self_mem_insertN m k v, hkind.mpr hnk,
          by rw [hanc, ← hqn, hqa]⟩
      · exact ⟨q, mem_insertN_of_ne hq hqk', hqk, hqa⟩
    rcases mem_insertN_elim hp with hp | hp
    · subst hp
      obtain ⟨q, hq, hqk, hqa⟩ := witness (k, n) hmem
      exact ⟨q, hq, hqk, by rw [hqa, hanc]⟩
    · exact witness p hp

/-! ### Pass 1 establishes the invariant -/

theorem hostsInv_insert {m : NodeMap} {k : Nat} {v : Node} (h : HostsInv m)
    (hip : v.Ip = k) (hv : v.Kind = KindHost) : HostsInv (insertN m k v) := by
  refine ⟨keysNodup_insertN v h.1, ?_⟩
  intro p hp
  rcases mem_insertN_elim hp with hp | hp
  · subst hp
    exact ⟨hip.symm, hv⟩
  · exact h.2 p hp

theorem hostPass_hostsInv (rservers : List Server) : HostsInv (hostPass rservers) := by
  suffices hgen : ∀ (l : List Server) (m : NodeMap), HostsInv m →
      HostsInv (l.foldl (fun m e => insertN m e.Server_ip (mkHost e)) m) by
    exact hgen rservers [] ⟨List.nodup_nil, by intro p hp; simp at hp⟩
  intro l
  induction l with
  | nil => intro m hm; exact hm
  | cons e l ih =>
    intro m hm
    exact ih _ (hostsInv_insert hm rfl rfl)

theorem MapInv_of_hostsInv {m : NodeMap} (h : HostsInv m) : MapInv m := by
  refine ⟨h.1, ?_, ?_⟩
  · intro p hp
    refine ⟨(h.2 p hp).1, ?_⟩
    have hk := (h.2 p hp).2
    simp [netOk, hk, KindHost, KindNetwork]
  · intro p hp
    exact ⟨p, hp, (h.2 p hp).2, rfl⟩

/-! ### Passes 2-5 preserve the invariant -/

theorem anc_applyIpFields (n : Node) (e : Ip) : anc (applyIpFields n e) = anc n := rfl

theorem netOk_applyIpFields (n : Node) (e : Ip) : netOk (applyIpFields n e) = netOk n := rfl

theorem ipStep_inv {m m' : NodeMap} {e : Ip} (h : MapInv m)
    (hs : ipStep m e = .ok m') : MapInv m' := by
  unfold ipStep at hs
  split at hs
  next n h1 =>
    injection hs with hs
    subst hs
    have hnip : e.Ip = n.Ip := (h.2.1 (e.Ip, n) (lookupN_mem h1)).1
    exact h.insert_update h1 (by simp [applyIpFields, ← hnip])
      (by rw [netOk_applyIpFields]; exact (h.2.1 (e.Ip, n) (lookupN_mem h1)).2)
      (anc_applyIpFields n e) (by simp [applyIpFields])
  next h1 =>
    split at hs
    next host h2 =>
      have hhip : e.Server_ip = host.Ip := (h.2.1 (e.Server_ip, host) (lookupN_mem h2)).1
      split at hs
      next hne =>
        injection hs with hs
        subst hs
        refine h.insert_fresh h1 (by simp [applyIpFields]) ?_ ?_
        · simp [netOk, applyIpFields, KindManagement, KindNetwork]
        · exact Or.inr ⟨(e.Server_ip, host), lookupN_mem h2, by rw [anc_applyIpFields]; rfl⟩
      next hne =>
        -- host.Ip = e.Ip would make e.Ip a key of m, contradicting the miss above
        push_neg at hne
        rw [← hne, ← hhip] at h1
        rw [h1] at h2
        exact absurd h2 (by simp)
    next h2 => simp at hs

theorem subnetStep_inv {st st' : NodeMap × List Node} {e : Subnet} (h : MapInv st.1)
    (hs : subnetStep st e = .ok st') : MapInv st'.1 := by
  unfold subnetStep at hs
  split at hs
  next n h1 => simp at hs
  next h1 =>
    split at hs
    next h2 => simp at hs
    next server h2 =>
      injection hs with hs
      subst hs
      refine h.insert_fresh h1 rfl ?_ ?_
      · simp [netOk, KindNetwork]
      · exact Or.inr ⟨(e.Server_ip, server), lookupN_mem h2, rfl⟩

theorem rdnsStep_inv {subnets : List Node} {m m' : NodeMap} {e : Rdns} (h : MapInv m)
    (hs : rdnsStep subnets m e = .ok m') : MapInv m' := by
  unfold rdnsStep at hs
  split at hs
  next n h1 =>
    injection hs with hs
    subst hs
    have hnip : e.Ip = n.Ip := (h.2.1 (e.Ip, n) (lookupN_mem h1)).1
    refine h.insert_update h1 (by simp [← hnip]) ?_ rfl (by simp)
    have := (h.2.1 (e.Ip, n) (lookupN_mem h1)).2
    simpa [netOk] using this
  next h1 =>
    split at hs
    next s h2 =>
      split at hs
      next host h3 =>
        injection hs with hs
        subst hs
        refine h.insert_fresh h1 rfl ?_ ?_
        · simp [netOk, KindVirtual, KindNetwork]
        · exact Or.inr ⟨(s.Server_ip, host), lookupN_mem h3, rfl⟩
      next h3 => simp at hs
    next h2 => simp at hs

theorem failoverStep_inv {m m' : NodeMap} {e : Failover} (h : MapInv m)
    (hs : failoverStep m e = .ok m') : MapInv m' := by
  unfold failoverStep at hs
  split at hs
  next n h1 =>
    split at hs
    next hg =>
      injection hs with hs
      subst hs
      have hnip : e.Ip = n.Ip := (h.2.1 (e.Ip, n) (lookupN_mem h1)).1
      refine h.insert_update h1 (by simp [← hnip]) ?_ rfl ?_
      · simp [netOk, KindFailover, KindNetwork]
      · constructor
        · intro hv
          exact absurd hv (by simp [KindFailover, KindHost])
        · intro hn
          rw [hg.1] at hn
          exact absurd hn (by simp [KindNetwork, KindHost])
    next hg => simp at hs
  next h1 => simp at hs

theorem runPass_preserves {α : Type} {f : NodeMap → α → Except RunError NodeMap}
    {P : NodeMap → Prop}
    (hf : ∀ m e m', P m → f m e = .ok m' → P m') :
    ∀ {l : List α} {m m' : NodeMap}, P m → runPass f m l = .ok m' → P m' := by
  intro l
  induction l with
  | nil =>
    intro m m' hm hr
    unfold runPass at hr
    injection hr with hr
    exact hr ▸ hm
  | cons e l ih =>
    intro m m' hm hr
    unfold runPass at hr
    split at hr
    next err heq => simp at hr
    next m1 heq => exact ih (hf m e m1 hm heq) hr

theorem runSubnetPass_preserves {P : NodeMap → Prop}
    (hf : ∀ st e st', P st.1 → subnetStep st e = .ok st' → P st'.1) :
    ∀ {l : List Subnet} {st st' : NodeMap × List Node}, P st.1 →
      runSubnetPass st l = .ok st' → P st'.1 := by
  intro l
  induction l with
  | nil =>
    intro st st' hm hr
    unfold runSubnetPass at hr
    injection hr with hr
    exact hr ▸ hm
  | cons e l ih =>
    intro st st' hm hr
    unfold runSubnetPass at hr
    split at hr
    next err heq => simp at hr
    next st1 heq => exact ih (hf st e st1 hm heq) hr

/-- On any successful run, the output is the sorted value list of a final
node map satisfying the invariant. -/
theorem getHetznerData_mapInv {rservers : List Server} {rips : List Ip}
    {rsubnets : List Subnet} {rrdns : List Rdns} {rfailover : List Failover}
    {out : List Node}
    (h : getHetznerData rservers rips rsubnets rrdns rfailover = .ok out) :
    ∃ m4 : NodeMap, MapInv m4 ∧ out = sortNodes (m4.map Prod.snd) := by
  unfold getHetznerData at h
  split at h
  next e h1 => simp at h
  next m1 h1 =>
    have hm1 : MapInv m1 :=
      runPass_preserves (fun m e m' hm hs => ipStep_inv hm hs)
        (MapInv_of_hostsInv (hostPass_hostsInv rservers)) h1
    split at h
    next e h2 => simp at h
    next m2 subnets h2 =>
      have hm2 : MapInv m2 :=
        runSubnetPass_preserves (fun st e st' hm hs => subnetStep_inv hm hs) hm1 h2
      split at h
      next e h3 => simp at h
      next m3 h3 =>
        have hm3 : MapInv m3 :=
          runPass_preserves (fun m e m' hm hs => rdnsStep_inv hm hs) hm2 h3
        split at h
        next e h4 => simp at h
        next m4 h4 =>
          have hm4 : MapInv m4 :=
            runPass_preserves (fun m e m' hm hs => failoverStep_inv hm hs) hm3 h4
          injection h with h
          exact ⟨m4, hm4, h.symm⟩

/-! ### From the final map to the sorted output list -/

theorem mem_sortNodes {l : List Node} {n : Node} : n ∈ sortNodes l ↔ n ∈ l :=
  (List.perm_insertionSort nodeLe l).mem_iff

/-- C1: ancestry-copy invariant. In every successful reconciliation output,
each node whose Kind is not Host has some Host-kind node in the output whose
ancestry fields (product, datacenter, server name, server number, status,
cancelled, flatrate, throttled, paid-until, traffic quota string) equal its
own; ancestry fields are never mutated after a node is created, so these are
the values snapshot at creation time. -/
theorem ancestry_copy_invariant {rservers : List Server} {rips : List Ip}
    {rsubnets : List Subnet} {rrdns : List Rdns} {rfailover : List Failover}
    {out : List Node}
    (h : getHetznerData rservers rips rsubnets rrdns rfailover = .ok out) :
    ∀ n ∈ out, n.Kind ≠ KindHost → ∃ h' ∈ out, h'.Kind = KindHost ∧ anc h' = anc n := by
  obtain ⟨m4, hinv, hout⟩ := getHetznerData_mapInv h
  subst hout
  intro n hn _hk
  rw [mem_sortNodes] at hn
  obtain ⟨p, hp, hpn⟩ := List.mem_map.mp hn
  obtain ⟨q, hq, hqk, hqa⟩ := hinv.2.2 p hp
  exact ⟨q.2, mem_sortNodes.mpr (List.mem_map_of_mem Prod.snd hq), hqk, by rw [hqa, hpn]⟩

theorem wRun : getHetznerData [wServer] [wIpRec] [] [] [] = .ok [wHost, wMgmt] := by rfl

theorem ancestry_copy_invariant_witness :
    ∃ h' ∈ [wHost, wMgmt], h'.Kind = KindHost ∧ anc h' = anc wMgmt :=
  ancestry_copy_invariant wRun wMgmt (by simp) (by decide)

/-! ### Identity uniqueness -/

theorem nodeId_ne {a b : Node} (ha : netOk a = true) (hb : netOk b = true)
    (hip : a.Ip ≠ b.Ip) : nodeId a ≠ nodeId b := by
  unfold netOk at ha hb
  unfold nodeId
  by_cases hak : a.Kind = KindNetwork
  · cases hsa : a.Subnet with
    | none => simp [hak, hsa] at ha
    | some pa =>
      obtain ⟨abase, amask⟩ := pa
      have haeq : abase = a.Ip := by simpa [hak, hsa] using ha
      by_cases hbk : b.Kind = KindNetwork
      · cases hsb : b.Subnet with
        | none => simp [hbk, hsb] at hb
        | some pb =>
          obtain ⟨bbase, bmask⟩ := pb
          have hbeq : bbase = b.Ip := by simpa [hbk, hsb] using hb
          simp only [hak, hsa, hbk, hsb, if_true, eq_self_iff_true]
          intro hc
          injection hc with h1 h2
          exact hip (haeq ▸ hbeq ▸ h1)
      · simp [hak, hsa, hbk]
  · by_cases hbk : b.Kind = KindNetwork
    · cases hsb : b.Subnet with
      | none => simp [hbk, hsb] at hb
      | some pb =>
        obtain ⟨bbase, bmask⟩ := pb
        simp [hak, hbk, hsb]
    · simpa [hak, hbk] using hip

/-- C7: identity uniqueness. In every successful reconciliation output, the
node identities (the IP for non-Network nodes, the subnet CIDR for
Network-kind nodes) are pairwise distinct. -/
theorem identity_uniqueness {rservers : List Server} {rips : List Ip}
    {rsubnets : List Subnet} {rrdns : List Rdns} {rfailover : List Failover}
    {out : List Node}
    (h : getHetznerData rservers rips rsubnets rrdns rfailover = .ok out) :
    out.Pairwise (fun a b => nodeId a ≠ nodeId b) := by
  obtain ⟨m4, hinv, hout⟩ := getHetznerData_mapInv h
  subst hout
  have hkeys : m4.Pairwise (fun p q : Nat × Node => p.1 ≠ q.1) :=
    (List.pairwise_map.mp hinv.1)
  have hpair : m4.Pairwise (fun p q : Nat × Node => nodeId p.2 ≠ nodeId q.2) := by
    refine hkeys.imp_of_mem ?_
    intro p q hp hq hne
    have hpi := hinv.2.1 p hp
    have hqi := hinv.2.1 q hq
    exact nodeId_ne hpi.2 hqi.2 (by rw [← hpi.1, ← hqi.1]; exact hne)
  have hmap : (m4.map Prod.snd).Pairwise (fun a b => nodeId a ≠ nodeId b) :=
    List.pairwise_map.mpr hpair
  exact ((List.perm_insertionSort nodeLe _).pairwise_iff
    (fun hab e => hab e.symm)).mpr hmap

theorem identity_uniqueness_witness :
    List.Pairwise (fun a b => nodeId a ≠ nodeId b) [wHost, wMgmt] :=
  identity_uniqueness wRun

/-! ### Ordering: Nodes.Less is lexicographic on (server number, kind rank) -/

theorem nodesLess_iff {a b : Node} : nodesLess a b = true ↔
    (a.Server_number < b.Server_number ∨
      (a.Server_number = b.Server_number ∧ a.Kind < b.Kind)) := by
  unfold nodesLess
  by_cases h : a.Server_number = b.Server_number
  · simp [h]
  · simp [h]

theorem nodeLe_iff {a b : Node} : nodeLe a b ↔
    (a.Server_number < b.Server_number ∨
      (a.Server_number = b.Server_number ∧ a.Kind ≤ b.Kind)) := by
  unfold nodeLe
  rw [Bool.eq_false_iff, Ne, nodesLess_iff]
  omega

theorem sortNodes_idem (l : List Node) : sortNodes (sortNodes l) = sortNodes l :=
  List.Sorted.insertionSort_eq (List.sorted_insertionSort nodeLe l)

/-- C5: node ordering. The comparator `nodesLess` is irreflexive, transitive
and total up to equality of the (server number, kind rank) key, and agrees
with the lexicographic comparison of server number ascending then kind rank
ascending; the numeric kind ranks satisfy Host < Management < Network <
Virtual < Failover; and sorting a node list twice yields the same list as
sorting it once. -/
theorem ordering_strict_total :
    (∀ a : Node, nodesLess a a = false) ∧
    (∀ a b c : Node, nodesLess a b = true → nodesLess b c = true → nodesLess a c = true) ∧
    (∀ a b : Node, nodesLess a b = true ∨ nodesLess b a = true ∨
      (a.Server_number = b.Server_number ∧ a.Kind = b.Kind)) ∧
    (∀ a b : Node, nodesLess a b = true ↔
      (a.Server_number < b.Server_number ∨
        (a.Server_number = b.Server_number ∧ a.Kind < b.Kind))) ∧
    (KindHost < KindManagement ∧ KindManagement < KindNetwork ∧
      KindNetwork < KindVirtual ∧ KindVirtual < KindFailover) ∧
    (∀ l : List Node, sortNodes (sortNodes l) = sortNodes l) := by
  refine ⟨?_, ?_, ?_, ?_, by decide, sortNodes_idem⟩
  · intro a
    rw [Bool.eq_false_iff, Ne, nodesLess_iff]
    omega
  · intro a b c hab hbc
    rw [nodesLess_iff] at hab hbc ⊢
    omega
  · intro a b
    rw [nodesLess_iff, nodesLess_iff]
    omega
  · intro a b
    exact nodesLess_iff

theorem ordering_strict_total_witness : nodesLess wHost wNet = true :=
  ordering_strict_total.2.1 wHost wMgmt wNet (by decide) (by decide)

/-- C6: concrete reconciliation scenario. One server (number 100, main IP
10.0.0.1) and one ip record (10.0.0.2 owned by 10.0.0.1) reconcile to
exactly two nodes: the Host at 10.0.0.1 and a Management node at 10.0.0.2
carrying the host's product, datacenter and server name. -/
theorem concrete_two_node_scenario :
    getHetznerData [c6Server] [c6IpRec] [] [] [] = .ok [c6Host, c6Mgmt] ∧
    c6Host.Kind = KindHost ∧ c6Host.Ip = 167772161 ∧
    c6Mgmt.Kind = KindManagement ∧ c6Mgmt.Ip = 167772162 ∧
    c6Mgmt.Product = c6Host.Product ∧ c6Mgmt.Dc = c6Host.Dc ∧
    c6Mgmt.Server_name = c6Host.Server_name :=
  ⟨rfl, rfl, rfl, rfl, rfl, rfl, rfl, rfl⟩

/-- C8: date-parse tolerance. A server whose paid-until string fails to
parse still reconciles without error; the resulting host node carries the
unset date, and every other field is exactly what any other paid-until
string (well-formed or not) would have produced. -/
theorem date_parse_tolerance (e : Server) (h : parsePaidUntil e.Paid_until = none) :
    ∃ n : Node, getHetznerData [e] [] [] [] [] = .ok [n] ∧ n.Paid_until = none ∧
      ∀ s : String, getHetznerData [{ e with Paid_until := s }] [] [] [] [] =
        .ok [{ n with Paid_until := parsePaidUntil s }] := by
  refine ⟨mkHost e, rfl, ?_, ?_⟩
  · show (mkHost e).Paid_until = none
    simp [mkHost, h]
  · intro s
    have hmk : mkHost { e with Paid_until := s } =
        { mkHost e with Paid_until := parsePaidUntil s } := by
      simp [mkHost]
    calc getHetznerData [{ e with Paid_until := s }] [] [] [] []
        = .ok [mkHost { e with Paid_until := s }] := rfl
      _ = .ok [{ mkHost e with Paid_until := parsePaidUntil s }] := by rw [hmk]

theorem date_parse_tolerance_witness :
    ∃ n : Node, getHetznerData [c8Server] [] [] [] [] = .ok [n] ∧ n.Paid_until = none ∧
      ∀ s : String, getHetznerData [{ c8Server with Paid_until := s }] [] [] [] [] =
        .ok [{ n with Paid_until := parsePaidUntil s }] :=
  date_parse_tolerance c8Server (by decide)

/-! ### C2: the IP pass and missing owners -/

/-- C2 counterexample: an ip record (ip 3) whose owning-server main IP (2)
holds a Management node created earlier in the same pass — so no Host-kind
node sits at the owning key — does not abort reconciliation: the code only
checks that some node exists at the owning key. -/
theorem ip_pass_counterexample :
    runPass ipStep (hostPass [wServer]) [wIpRec] = .ok [(1, wHost), (2, wMgmt)] ∧
    lookupN [(1, wHost), (2, wMgmt)] 3 = none ∧
    lookupN [(1, wHost), (2, wMgmt)] 2 = some wMgmt ∧
    wMgmt.Kind ≠ KindHost ∧
    (∃ l, getHetznerData [wServer] [wIpRec, cxIpB] [] [] [] = .ok l) :=
  ⟨rfl, rfl, rfl, by decide, ⟨_, rfl⟩⟩

/-- C2 (amended): for an ip record whose IP is not yet a node key, the IP
pass aborts fatally exactly when no node of any kind sits at the
owning-server main IP; when a node does sit there (under the map invariant
its IP is its key, hence differs from the record's IP), a new
Management-kind node is created at the record's IP with that node's
ancestry cloned in, and no other key changes. -/
theorem ip_pass_error_handling (m : NodeMap) (e : Ip) (hm : MapInv m)
    (h1 : lookupN m e.Ip = none) :
    (lookupN m e.Server_ip = none ∧ ipStep m e = .error (.noHostForIp e.Ip)) ∨
    (∃ host, lookupN m e.Server_ip = some host ∧ host.Ip ≠ e.Ip ∧
      ∃ m', ipStep m e = .ok m' ∧
        lookupN m' e.Ip =
          some (applyIpFields { host with Ip := e.Ip, Kind := KindManagement } e) ∧
        anc (applyIpFields { host with Ip := e.Ip, Kind := KindManagement } e) = anc host ∧
        (∀ k, k ≠ e.Ip → lookupN m' k = lookupN m k)) := by
  cases h2 : lookupN m e.Server_ip with
  | none =>
    left
    refine ⟨rfl, ?_⟩
    simp only [ipStep, h1, h2]
  | some host =>
    right
    have hhip : e.Server_ip = host.Ip := (hm.2.1 (e.Server_ip, host) (lookupN_mem h2)).1
    have hne : host.Ip ≠ e.Ip := by
      intro hcontra
      rw [← hcontra, ← hhip, h2] at h1
      exact Option.noConfusion h1
    refine ⟨host, rfl, hne,
      insertN m e.Ip (applyIpFields { host with Ip := e.Ip, Kind := KindManagement } e),
      ?_, ?_, rfl, ?_⟩
    · simp only [ipStep, h1, h2, if_pos hne]
    · exact lookupN_insertN_self m e.Ip _
    · intro k hk
      exact lookupN_insertN_ne m _ hk

theorem ip_pass_error_handling_witness :
    (lookupN [(1, wHost)] wIpRec.Server_ip = none ∧
      ipStep [(1, wHost)] wIpRec = .error (.noHostForIp wIpRec.Ip)) ∨
    (∃ host, lookupN [(1, wHost)] wIpRec.Server_ip = some host ∧ host.Ip ≠ wIpRec.Ip ∧
      ∃ m', ipStep [(1, wHost)] wIpRec = .ok m' ∧
        lookupN m' wIpRec.Ip =
          some (applyIpFields { host with Ip := wIpRec.Ip, Kind := KindManagement } wIpRec) ∧
        anc (applyIpFields { host with Ip := wIpRec.Ip, Kind := KindManagement } wIpRec) =
          anc host ∧
        (∀ k, k ≠ wIpRec.Ip → lookupN m' k = lookupN [(1, wHost)] k)) :=
  ip_pass_error_handling [(1, wHost)] wIpRec (by decide) (by decide)

/-! ### C3: the RDNS pass -/

/-- C3: RDNS pass placement. Under the run invariant that every subnet's
owning entry is a Host-kind node, each rdns record is handled in one of
exactly three ways: a node already at its IP gets the PTR attached in
place; otherwise the first subnet, in creation order, whose range contains
the IP yields a new Virtual-kind node at that IP with the PTR attached and
the owning host's ancestry cloned; otherwise the pass aborts fatally. -/
theorem rdns_pass_placement (m : NodeMap) (subnets : List Node) (e : Rdns)
    (hown : ∀ s ∈ subnets, ownerIsHost m s = true) :
    (∃ n, lookupN m e.Ip = some n ∧
      rdnsStep subnets m e = .ok (insertN m e.Ip { n with Ptr := e.Ptr })) ∨
    (lookupN m e.Ip = none ∧
      ∃ s, subnets.find? (fun s => subnetHas s e.Ip) = some s ∧
      ∃ h, lookupN m s.Server_ip = some h ∧ h.Kind = KindHost ∧
      ∃ m', rdnsStep subnets m e = .ok m' ∧
        lookupN m' e.Ip = some { h with Ip := e.Ip, Ptr := e.Ptr, Kind := KindVirtual } ∧
        anc { h with Ip := e.Ip, Ptr := e.Ptr, Kind := KindVirtual } = anc h) ∨
    (lookupN m e.Ip = none ∧ subnets.find? (fun s => subnetHas s e.Ip) = none ∧
      rdnsStep subnets m e = .error (.loosenRdns e.Ip)) := by
  cases h1 : lookupN m e.Ip with
  | some n =>
    left
    exact ⟨n, rfl, by simp only [rdnsStep, h1]⟩
  | none =>
    right
    cases h2 : subnets.find? (fun s => subnetHas s e.Ip) with
    | some s =>
      left
      have hmem : s ∈ subnets := List.mem_of_find?_eq_some h2
      have hsown := hown s hmem
      unfold ownerIsHost at hsown
      cases h3 : lookupN m s.Server_ip with
      | none => rw [h3] at hsown; exact absurd hsown (by simp)
      | some hh =>
        rw [h3] at hsown
        have hkind : hh.Kind = KindHost := by simpa using hsown
        refine ⟨rfl, s, rfl, hh, h3, hkind,
          insertN m e.Ip { hh with Ip := e.Ip, Ptr := e.Ptr, Kind := KindVirtual },
          ?_, ?_, rfl⟩
        · simp only [rdnsStep, h1, h2, h3]
        · exact lookupN_insertN_self m e.Ip _
    | none =>
      right
      exact ⟨rfl, rfl, by simp only [rdnsStep, h1, h2]⟩

theorem rdns_pass_placement_witness :
    (∃ n, lookupN [(1, wHost)] (300 : Nat) = some n ∧
      rdnsStep [wNet] [(1, wHost)] ⟨300, "x"⟩ =
        .ok (insertN [(1, wHost)] 300 { n with Ptr := "x" })) ∨
    (lookupN [(1, wHost)] (300 : Nat) = none ∧
      ∃ s, [wNet].find? (fun s => subnetHas s 300) = some s ∧
      ∃ h, lookupN [(1, wHost)] s.Server_ip = some h ∧ h.Kind = KindHost ∧
      ∃ m', rdnsStep [wNet] [(1, wHost)] ⟨300, "x"⟩ = .ok m' ∧
        lookupN m' (300 : Nat) = some { h with Ip := 300, Ptr := "x", Kind := KindVirtual } ∧
        anc { h with Ip := 300, Ptr := "x", Kind := KindVirtual } = anc h) ∨
    (lookupN [(1, wHost)] (300 : Nat) = none ∧
      [wNet].find? (fun s => subnetHas s 300) = none ∧
      rdnsStep [wNet] [(1, wHost)] ⟨300, "x"⟩ = .error (.loosenRdns 300)) :=
  rdns_pass_placement [(1, wHost)] [wNet] ⟨300, "x"⟩ (by decide)

/-- C4: failover pass. For each failover record: if no node sits at its IP,
or the node there is not a Network-kind node with the failover flag set,
the pass aborts fatally (the record is never skipped); otherwise that node
is reclassified to Failover kind with its active-destination IP set from
the record, and no other key changes. -/
theorem failover_pass (m : NodeMap) (e : Failover) :
    (lookupN m e.Ip = none ∧ failoverStep m e = .error (.noSubnetForFailover e.Ip)) ∨
    (∃ n, lookupN m e.Ip = some n ∧ ¬(n.Kind = KindNetwork ∧ n.Failover = true) ∧
      failoverStep m e = .error (.noSubnetForFailover e.Ip)) ∨
    (∃ n, lookupN m e.Ip = some n ∧ n.Kind = KindNetwork ∧ n.Failover = true ∧
      ∃ m', failoverStep m e = .ok m' ∧
        lookupN m' e.Ip =
          some { n with Kind := KindFailover, Active_server_ip := some e.Active_server_ip } ∧
        (∀ k, k ≠ e.Ip → lookupN m' k = lookupN m k)) := by
  cases h1 : lookupN m e.Ip with
  | none =>
    left
    exact ⟨rfl, by simp only [failoverStep, h1]⟩
  | some n =>
    right
    by_cases hg : n.Kind = KindNetwork ∧ n.Failover = true
    · right
      refine ⟨n, rfl, hg.1, hg.2,
        insertN m e.Ip { n with Kind := KindFailover, Active_server_ip := some e.Active_server_ip },
        ?_, ?_, ?_⟩
      · simp only [failoverStep, h1, if_pos hg]
      · exact lookupN_insertN_self m e.Ip _
      · intro k hk
        exact lookupN_insertN_ne m _ hk
    · left
      exact ⟨n, rfl, hg, by simp only [failoverStep, h1, if_neg hg]⟩

/-- C9: implicit precondition of the subnet pass. When a subnet record's
network address is free but no node of any kind sits at its owning-server
main IP, the pass fails by dereferencing the missing entry — an outcome
distinct from every descriptive graph-consistency panic — and it returns a
proper node table exactly when the owning entry exists. -/
theorem subnet_pass_owner_precondition (st : NodeMap × List Node) (e : Subnet)
    (h1 : lookupN st.1 e.Ip = none) :
    (lookupN st.1 e.Server_ip = none ∧
      subnetStep st e = .error (.nilServerForSubnet e.Ip) ∧
      (∀ ip, RunError.nilServerForSubnet e.Ip ≠ .noHostForIp ip) ∧
      (∀ ip, RunError.nilServerForSubnet e.Ip ≠ .subnetConflict ip) ∧
      (∀ ip, RunError.nilServerForSubnet e.Ip ≠ .loosenRdns ip) ∧
      (∀ ip, RunError.nilServerForSubnet e.Ip ≠ .noSubnetForFailover ip)) ∨
    (∃ server, lookupN st.1 e.Server_ip = some server ∧
      ∃ st', subnetStep st e = .ok st') := by
  cases h2 : lookupN st.1 e.Server_ip with
  | none =>
    left
    refine ⟨rfl, by simp only [subnetStep, h1, h2], ?_, ?_, ?_, ?_⟩ <;>
      (intro ip hcontra; exact RunError.noConfusion hcontra)
  | some server =>
    right
    exact ⟨server, rfl, _, by simp only [subnetStep, h1, h2]; rfl⟩

theorem subnet_pass_owner_precondition_witness :
    (lookupN ([] : NodeMap) c9SubnetRec.Server_ip = none ∧
      subnetStep ([], []) c9SubnetRec = .error (.nilServerForSubnet c9SubnetRec.Ip) ∧
      (∀ ip, RunError.nilServerForSubnet c9SubnetRec.Ip ≠ .noHostForIp ip) ∧
      (∀ ip, RunError.nilServerForSubnet c9SubnetRec.Ip ≠ .subnetConflict ip) ∧
      (∀ ip, RunError.nilServerForSubnet c9SubnetRec.Ip ≠ .loosenRdns ip) ∧
      (∀ ip, RunError.nilServerForSubnet c9SubnetRec.Ip ≠ .noSubnetForFailover ip)) ∨
    (∃ server, lookupN ([] : NodeMap) c9SubnetRec.Server_ip = some server ∧
      ∃ st', subnetStep (([] : NodeMap), ([] : List Node)) c9SubnetRec = .ok st') :=
  subnet_pass_owner_precondition ([], []) c9SubnetRec (by decide)

/-- C10: Client.do on a transport error. With a nil response the function
crashes on the nil dereference and can return neither the intended
RequestError nor success; it is free of that crash exactly when the
transport produced a non-nil response. -/
theorem client_do_nil_response (method path : String) (err : Option String)
    (decodeErrorBody : String → Except String ApiError)
    (decodeValue : String → Except String Unit) :
    (clientDo method path none err decodeErrorBody decodeValue = .crash ∧
      (∀ e, clientDo method path none err decodeErrorBody decodeValue ≠ .fail e) ∧
      clientDo method path none err decodeErrorBody decodeValue ≠ .done) ∧
    (∀ r, clientDo method path (some r) err decodeErrorBody decodeValue ≠ .crash) := by
  constructor
  · exact ⟨rfl, fun e h => DoResult.noConfusion h, fun h => DoResult.noConfusion h⟩
  · intro r h
    simp only [clientDo] at h
    split at h
    · simp at h
    · split at h
      · split at h <;> simp at h
      · split at h <;> simp at h

theorem client_do_nil_response_witness :
    (clientDo "GET" "/server" none (some "eof") (fun _ => .error "x") (fun _ => .error "x") =
      .crash ∧
      (∀ e, clientDo "GET" "/server" none (some "eof") (fun _ => .error "x")
        (fun _ => .error "x") ≠ .fail e) ∧
      clientDo "GET" "/server" none (some "eof") (fun _ => .error "x")
        (fun _ => .error "x") ≠ .done) ∧
    (∀ r, clientDo "GET" "/server" (some r) (some "eof") (fun _ => .error "x")
      (fun _ => .error "x") ≠ .crash) :=
  client_do_nil_response "GET" "/server" (some "eof") (fun _ => .error "x") (fun _ => .error "x")

theorem failover_pass_witness :
    (lookupN ([] : NodeMap) c4FoRec.Ip = none ∧
      failoverStep [] c4FoRec = .error (.noSubnetForFailover c4FoRec.Ip)) ∨
    (∃ n, lookupN ([] : NodeMap) c4FoRec.Ip = some n ∧
      ¬(n.Kind = KindNetwork ∧ n.Failover = true) ∧
      failoverStep [] c4FoRec = .error (.noSubnetForFailover c4FoRec.Ip)) ∨
    (∃ n, lookupN ([] : NodeMap) c4FoRec.Ip = some n ∧ n.Kind = KindNetwork ∧
      n.Failover = true ∧
      ∃ m', failoverStep [] c4FoRec = .ok m' ∧
        lookupN m' c4FoRec.Ip =
          some { n with Kind := KindFailover,
                        Active_server_ip := some c4FoRec.Active_server_ip } ∧
        (∀ k, k ≠ c4FoRec.Ip → lookupN m' k = lookupN ([] : NodeMap) k)) :=
  failover_pass [] c4FoRec
